import Mathlib

/-!
Verification of the early-stopping module (`small_text/training/early_stopping.py`).

The Python module is shallowly embedded here:
* measured values are rationals (`ℚ`), absent metric values are `Option.none`
  (numpy stores them as NaN; all NaN comparisons are false, which `Option`
  matching reproduces);
* the numpy structured history array becomes a `List Entry`;
* Python exceptions become the `Except String` error component of the result;
* Python/numpy negative indexing and slicing are modelled explicitly
  (`pyIndex`, `pySlice`).
-/

namespace SmallText

/-- Sign of a rational, as `np.sign`: 1, -1 or 0. -/
def qsign (q : ℚ) : Int :=
  if 0 < q then 1 else if q < 0 then -1 else 0

/-- Character-list prefix test (used to model the Python substring test). -/
def leadsList : List Char → List Char → Bool
  | [], _ => true
  | _ :: _, [] => false
  | a :: as, b :: bs => a = b && leadsList as bs

/-- Python `needle in hay` substring containment on strings. -/
def strContains (hay needle : String) : Bool :=
  hay.data.tails.any (fun t => leadsList needle.data t)

/-- One record of the history array: epoch, duplicate count, and the four
optional metric values (`None`/NaN modelled as `Option.none`). -/
structure Entry where
  epoch : Int
  count : Nat
  train_acc : Option ℚ
  train_loss : Option ℚ
  val_acc : Option ℚ
  val_loss : Option ℚ
  deriving DecidableEq, Repr

/-- Field access on a history record by metric name, as `history[monitor]`
does for one row. Only the four schema names yield a value. -/
def Entry.getMetric (en : Entry) (name : String) : Option ℚ :=
  if name = "train_acc" then en.train_acc
  else if name = "train_loss" then en.train_loss
  else if name = "val_acc" then en.val_acc
  else if name = "val_loss" then en.val_loss
  else none

/-- A measurement dictionary: metric name to optional value; `measured_values.get(k, None)`
is function application. -/
def Meas : Type := String → Option ℚ

/-- The mutable state of an `EarlyStopping` instance. -/
structure ESState where
  monitor : String
  min_delta : ℚ
  patience : Int
  threshold : ℚ
  index_best : Int
  history : List Entry
  deriving DecidableEq, Repr

/-- The metric names accepted by `_validate_arguments`. -/
def validMonitors : List String := ["train_acc", "train_loss", "val_acc", "val_loss"]

/-- `EarlyStopping._validate_arguments`: the four eager checks, in source order. -/
def validateArguments (monitor : String) (min_delta : ℚ) (patience : Int)
    (threshold : ℚ) : Except String Unit :=
  if monitor ∉ validMonitors then
    Except.error "Unsupported metric. Valid values: [train_acc, train_loss, val_acc, val_loss]"
  else if min_delta < 0 then
    Except.error "Invalid value encountered: min_delta needs to be greater than zero."
  else if patience ≤ 0 then
    Except.error "Invalid value encountered: patience needs to be greater or equal 1."
  else if strContains monitor "_acc" ∧ (threshold < 0 ∨ 1 < threshold) then
    Except.error "Invalid value encountered: threshold needs to be within the interval [0, 1] for accuracy metrics."
  else
    Except.ok ()

/-- The post-validation initial state built by `EarlyStopping.__init__`. -/
def freshES (monitor : String) (min_delta : ℚ) (patience : Int) (threshold : ℚ) : ESState :=
  ⟨monitor, min_delta, patience, threshold, -1, []⟩

/-- `EarlyStopping.__init__`: validate eagerly, then initial state with
`index_best = -1` and empty history. -/
def mkEarlyStopping (monitor : String) (min_delta : ℚ) (patience : Int)
    (threshold : ℚ) : Except String ESState :=
  match validateArguments monitor min_delta patience threshold with
  | Except.error e => Except.error e
  | Except.ok _ => Except.ok (freshES monitor min_delta patience threshold)

/-- The Python default for `min_delta` (1e-14). -/
def defaultMinDelta : ℚ := 1 / 100000000000000

/-- `monitor_sign`: +1 for accuracy metrics (substring `_acc`), -1 otherwise. -/
def monitorSign (monitor : String) : Int :=
  if strContains monitor "_acc" then 1 else -1

/-- `EarlyStopping.add_to_history`: duplicate count of the epoch among existing
entries, the four optional metric fields from the measurement, appended. -/
def addToHistory (s : ESState) (epoch : Int) (m : Meas) : List Entry :=
  let count := (s.history.filter (fun en => en.epoch = epoch)).length
  s.history ++ [⟨epoch, count, m "train_acc", m "train_loss", m "val_acc", m "val_loss"⟩]

/-- Python/numpy scalar indexing with negative-index wraparound (out of range
yields `none`; every reachable use is in range). -/
def pyIndex (l : List (Option ℚ)) (i : Int) : Option ℚ :=
  let j := if i < 0 then i + l.length else i
  if j < 0 then none else l.getD j.toNat none

/-- Python/numpy slicing `l[i:]` with negative-index wraparound. -/
def pySlice (l : List (Option ℚ)) (i : Int) : List (Option ℚ) :=
  let j := if i < 0 then max (i + l.length) 0 else i
  l.drop j.toNat

/-- `self.history[self.monitor]`: the monitored-metric column of the history. -/
def monitorColumn (s : ESState) : List (Option ℚ) :=
  s.history.map (fun en => en.getMetric s.monitor)

/-- The `improvement` boolean of `_check_for_improvement`: sign of
`value - previous_best` against the monitor sign, with the `min_delta`
magnitude test when `min_delta > 0`. A NaN `previous_best` (here `none`)
makes every comparison false. -/
def improvementOf (s : ESState) (v : ℚ) (msign : Int) : Bool :=
  match pyIndex (monitorColumn s) s.index_best with
  | none => false
  | some pbv =>
    let delta := v - pbv
    if 0 < s.min_delta then decide (qsign delta = msign ∧ s.min_delta ≤ |delta|)
    else decide (qsign delta = msign)

/-- `rows_not_nan.sum()` over `history[index_best+1:][monitor]`: the number of
present monitored values strictly after the best index. -/
def nonMissingSinceBest (s : ESState) : Nat :=
  ((pySlice (monitorColumn s) (s.index_best + 1)).filter Option.isSome).length

/-- `EarlyStopping._check_for_improvement`, acting on the state after the
current entry has been appended. -/
def checkForImprovement (s : ESState) (v : ℚ) (msign : Int) : Bool × ESState :=
  let index_last : Int := (s.history.length : Int) - 1
  if improvementOf s v msign then
    (false, { s with index_best := index_last })
  else if s.patience < (nonMissingSinceBest s : Int) then
    (true, s)
  else
    (false, s)

/-- `has_crossed_threshold`: the monitored value is present and the sign of
`value - threshold` equals the monitor sign. -/
def hasCrossedThreshold (s : ESState) (m : Meas) : Bool :=
  match m s.monitor with
  | none => false
  | some v => decide (qsign (v - s.threshold) = monitorSign s.monitor)

/-- The state with the current check call appended to the history. -/
def afterAppend (s : ESState) (epoch : Int) (m : Meas) : ESState :=
  { s with history := addToHistory s epoch m }

/-- `EarlyStopping.check_early_stop`: epoch guard, append, threshold rule,
missing-value early return, first-entry rule, improvement/patience rule.
Returns the answer (or the raised error) together with the updated state. -/
def checkEarlyStop (s : ESState) (epoch : Int) (m : Meas) : Except String Bool × ESState :=
  if epoch ≤ 0 then
    (Except.error "Argument epoch must be greater than zero.", s)
  else
    let s1 := afterAppend s epoch m
    let msign := monitorSign s1.monitor
    if 0 < s1.threshold ∧ hasCrossedThreshold s1 m then
      (Except.ok true, s1)
    else
      match m s1.monitor with
      | none => (Except.ok false, s1)
      | some v =>
        if s1.history.length = 1 then
          (Except.ok false, { s1 with index_best := 0 })
        else
          let r := checkForImprovement s1 v msign
          (Except.ok r.1, r.2)

/-- The three handler variants behind the `EarlyStoppingHandler` interface:
`NoopEarlyStopping`, `EarlyStopping`, `SequentialEarlyStopping`. -/
inductive Handler where
  | noop : Handler
  | early : ESState → Handler
  | seq : List Handler → Handler

mutual

/-- `check_early_stop` of each handler variant. The sequential handler calls
every child in list order, collecting all answers, and returns their
disjunction (`np.any`); a child's exception aborts the loop there, leaving
the earlier children's mutations in place and the rest untouched. -/
def checkH : Handler → Int → Meas → Except String Bool × Handler
  | Handler.noop, _, _ => (Except.ok false, Handler.noop)
  | Handler.early s, e, m =>
    let r := checkEarlyStop s e m
    (r.1, Handler.early r.2)
  | Handler.seq hs, e, m =>
    match checkHList hs e m with
    | (Except.ok bs, hs2) => (Except.ok (bs.any id), Handler.seq hs2)
    | (Except.error err, hs2) => (Except.error err, Handler.seq hs2)

/-- The `for` loop of `SequentialEarlyStopping.check_early_stop`. -/
def checkHList : List Handler → Int → Meas → Except String (List Bool) × List Handler
  | [], _, _ => (Except.ok [], [])
  | h :: t, e, m =>
    match checkH h e m with
    | (Except.ok b, h2) =>
      match checkHList t e m with
      | (Except.ok bs, t2) => (Except.ok (b :: bs), h2 :: t2)
      | (Except.error err, t2) => (Except.error err, h2 :: t2)
    | (Except.error err, h2) => (Except.error err, h2 :: t)

end

/-- A sequence of check calls against one `EarlyStopping` instance: the list
of answers and the final state. -/
def runChecks : ESState → List (Int × Meas) → List (Except String Bool) × ESState
  | s, [] => ([], s)
  | s, (e, m) :: rest =>
    let r := checkEarlyStop s e m
    let rr := runChecks r.2 rest
    (r.1 :: rr.1, rr.2)

/-- Final state of a sequence of check calls. -/
def runState (s : ESState) (calls : List (Int × Meas)) : ESState :=
  (runChecks s calls).2

/-- The answers of a sequence of check calls. -/
def runDecisions (s : ESState) (calls : List (Int × Meas)) : List (Except String Bool) :=
  (runChecks s calls).1

/-- The empty measurement dictionary. -/
def measEmpty : Meas := fun _ => none

/-- A one-key measurement dictionary. -/
def measOf (name : String) (q : ℚ) : Meas :=
  fun k => if k = name then some q else none

/-- Decidable equality for check answers. -/
instance instDecEqExcept {ε α : Type} [DecidableEq ε] [DecidableEq α] :
    DecidableEq (Except ε α) := fun x y =>
  match x, y with
  | Except.ok u, Except.ok v =>
    if h : u = v then isTrue (by rw [h])
    else isFalse (by intro hh; cases hh; exact h rfl)
  | Except.ok _, Except.error _ => isFalse (fun hh => Except.noConfusion hh)
  | Except.error _, Except.ok _ => isFalse (fun hh => Except.noConfusion hh)
  | Except.error u, Except.error v =>
    if h : u = v then isTrue (by rw [h])
    else isFalse (by intro hh; cases hh; exact h rfl)

/-- `index_best` is -1 or a valid index into the history. -/
def IndexValid (s : ESState) : Prop :=
  s.index_best = -1 ∨ (0 ≤ s.index_best ∧ s.index_best < (s.history.length : Int))

/-- `bv` is at least as good as `v` in the monitored direction. -/
def betterEq (msign : Int) (bv v : ℚ) : Prop :=
  if msign = 1 then v ≤ bv else bv ≤ v

/-- `index_best` is a valid index whose entry carries the best present
monitored value: maximal for accuracy monitors, minimal for loss monitors. -/
def BestIndexPointsToBest (s : ESState) : Prop :=
  0 ≤ s.index_best ∧ s.index_best < (s.history.length : Int) ∧
  ∃ bv, pyIndex (monitorColumn s) s.index_best = some bv ∧
    ∀ ov ∈ monitorColumn s, ∀ v, ov = some v → betterEq (monitorSign s.monitor) bv v

/-- The answer of a check call when it did not raise, `false` otherwise. -/
def okAnswer (h : Handler) (e : Int) (m : Meas) : Bool :=
  match (checkH h e m).1 with
  | Except.ok b => b
  | Except.error _ => false

attribute [local semireducible] Rat.add Rat.sub Rat.mul Rat.inv Rat.ofScientific

/-! ## General lemmas about the embedded operations -/

lemma qsign_eq_one_iff (q : ℚ) : qsign q = 1 ↔ 0 < q := by
  unfold qsign
  split_ifs with h1 h2
  · exact iff_of_true rfl h1
  · exact iff_of_false (by decide) (fun hq => absurd hq (not_lt.mpr h2.le))
  · exact iff_of_false (by decide) h1

lemma qsign_eq_neg_one_iff (q : ℚ) : qsign q = -1 ↔ q < 0 := by
  unfold qsign
  split_ifs with h1 h2
  · exact iff_of_false (by decide) (fun hq => absurd h1 (not_lt.mpr hq.le))
  · exact iff_of_true rfl h2
  · exact iff_of_false (by decide) h2

lemma checkEarlyStop_err (s : ESState) (e : Int) (m : Meas) (he : e ≤ 0) :
    checkEarlyStop s e m = (Except.error "Argument epoch must be greater than zero.", s) := by
  unfold checkEarlyStop
  rw [if_pos he]

lemma addToHistory_length (s : ESState) (e : Int) (m : Meas) :
    (addToHistory s e m).length = s.history.length + 1 := by
  simp [addToHistory]

lemma afterAppend_fields (s : ESState) (e : Int) (m : Meas) :
    (afterAppend s e m).monitor = s.monitor ∧ (afterAppend s e m).min_delta = s.min_delta ∧
    (afterAppend s e m).patience = s.patience ∧ (afterAppend s e m).threshold = s.threshold ∧
    (afterAppend s e m).index_best = s.index_best ∧
    (afterAppend s e m).history = addToHistory s e m :=
  ⟨rfl, rfl, rfl, rfl, rfl, rfl⟩

lemma checkEarlyStop_spec (s : ESState) (e : Int) (m : Meas) (he : 0 < e) :
    (checkEarlyStop s e m).2.monitor = s.monitor ∧
    (checkEarlyStop s e m).2.min_delta = s.min_delta ∧
    (checkEarlyStop s e m).2.patience = s.patience ∧
    (checkEarlyStop s e m).2.threshold = s.threshold ∧
    (checkEarlyStop s e m).2.history = addToHistory s e m ∧
    ((checkEarlyStop s e m).2.index_best = s.index_best ∨
      (checkEarlyStop s e m).2.index_best = (s.history.length : Int)) := by
  have hlen : (afterAppend s e m).history.length = s.history.length + 1 := by
    simp [afterAppend, addToHistory]
  unfold checkEarlyStop
  rw [if_neg (by omega)]
  dsimp only
  split
  · exact ⟨rfl, rfl, rfl, rfl, rfl, Or.inl rfl⟩
  · split
    · exact ⟨rfl, rfl, rfl, rfl, rfl, Or.inl rfl⟩
    · split
      next h1 =>
        refine ⟨rfl, rfl, rfl, rfl, rfl, Or.inr ?_⟩
        dsimp only
        rw [hlen] at h1
        omega
      next h1 =>
        unfold checkForImprovement
        dsimp only
        split
        · refine ⟨rfl, rfl, rfl, rfl, rfl, Or.inr ?_⟩
          dsimp only
          rw [hlen]
          push_cast
          omega
        · split
          · exact ⟨rfl, rfl, rfl, rfl, rfl, Or.inl rfl⟩
          · exact ⟨rfl, rfl, rfl, rfl, rfl, Or.inl rfl⟩

lemma checkEarlyStop_fields (s : ESState) (e : Int) (m : Meas) :
    (checkEarlyStop s e m).2.monitor = s.monitor ∧
    (checkEarlyStop s e m).2.min_delta = s.min_delta ∧
    (checkEarlyStop s e m).2.patience = s.patience ∧
    (checkEarlyStop s e m).2.threshold = s.threshold := by
  rcases le_or_lt e 0 with h | h
  · rw [checkEarlyStop_err s e m h]
    exact ⟨rfl, rfl, rfl, rfl⟩
  · obtain ⟨h1, h2, h3, h4, _, _⟩ := checkEarlyStop_spec s e m h
    exact ⟨h1, h2, h3, h4⟩

lemma runState_nil (s : ESState) : runState s [] = s := rfl

lemma runState_cons (s : ESState) (e : Int) (m : Meas) (rest : List (Int × Meas)) :
    runState s ((e, m) :: rest) = runState ((checkEarlyStop s e m).2) rest := rfl

lemma runState_append (s : ESState) (a b : List (Int × Meas)) :
    runState s (a ++ b) = runState (runState s a) b := by
  induction a generalizing s with
  | nil => rfl
  | cons hd tl ih =>
    obtain ⟨e, m⟩ := hd
    rw [List.cons_append, runState_cons, runState_cons]
    exact ih _

lemma indexValid_step (s : ESState) (e : Int) (m : Meas) (hv : IndexValid s) :
    IndexValid ((checkEarlyStop s e m).2) := by
  rcases le_or_lt e 0 with h | h
  · rw [checkEarlyStop_err s e m h]
    exact hv
  · obtain ⟨_, _, _, _, h5, h6⟩ := checkEarlyStop_spec s e m h
    have hl : (checkEarlyStop s e m).2.history.length = s.history.length + 1 := by
      rw [h5, addToHistory_length]
    unfold IndexValid at hv ⊢
    rcases h6 with h6 | h6 <;> rw [h6] <;> omega

lemma index_mono_step (s : ESState) (e : Int) (m : Meas) (hv : IndexValid s) :
    s.index_best ≤ (checkEarlyStop s e m).2.index_best := by
  rcases le_or_lt e 0 with h | h
  · rw [checkEarlyStop_err s e m h]
  · obtain ⟨_, _, _, _, _, h6⟩ := checkEarlyStop_spec s e m h
    unfold IndexValid at hv
    rcases h6 with h6 | h6 <;> rw [h6] <;> omega

lemma indexValid_run (s : ESState) (calls : List (Int × Meas)) (hv : IndexValid s) :
    IndexValid (runState s calls) := by
  induction calls generalizing s with
  | nil => exact hv
  | cons hd tl ih =>
    obtain ⟨e, m⟩ := hd
    rw [runState_cons]
    exact ih _ (indexValid_step s e m hv)

lemma index_mono_run (s : ESState) (calls : List (Int × Meas)) (hv : IndexValid s) :
    s.index_best ≤ (runState s calls).index_best := by
  induction calls generalizing s with
  | nil => exact le_refl _
  | cons hd tl ih =>
    obtain ⟨e, m⟩ := hd
    rw [runState_cons]
    exact le_trans (index_mono_step s e m hv) (ih _ (indexValid_step s e m hv))

lemma pyIndex_nonneg (l : List (Option ℚ)) (i : Int) (h0 : 0 ≤ i) :
    pyIndex l i = l.getD i.toNat none := by
  unfold pyIndex
  rw [if_neg (not_lt.mpr h0), if_neg (not_lt.mpr h0)]

lemma pyIndex_append (l l2 : List (Option ℚ)) (i : Int) (h0 : 0 ≤ i)
    (hl : i < (l.length : Int)) :
    pyIndex (l ++ l2) i = pyIndex l i := by
  rw [pyIndex_nonneg _ i h0, pyIndex_nonneg _ i h0]
  exact List.getD_append _ _ _ _ (by omega)

lemma pyIndex_concat (l : List (Option ℚ)) (x : Option ℚ) :
    pyIndex (l ++ [x]) (l.length : Int) = x := by
  rw [pyIndex_nonneg _ _ (by omega)]
  have : ((l.length : Int)).toNat = l.length := by omega
  rw [this, List.getD_eq_getElem?_getD, List.getElem?_concat_length]
  rfl

lemma monitorColumn_length (s : ESState) :
    (monitorColumn s).length = s.history.length := by
  simp [monitorColumn]

lemma getMetric_new_entry (ep : Int) (c : Nat) (m : Meas) (monitor : String)
    (hm : monitor ∈ validMonitors) :
    Entry.getMetric ⟨ep, c, m "train_acc", m "train_loss", m "val_acc", m "val_loss"⟩ monitor
      = m monitor := by
  simp only [validMonitors, List.mem_cons, List.not_mem_nil, or_false] at hm
  rcases hm with h | h | h | h <;> subst h <;> rfl

lemma monitorColumn_afterAppend (s : ESState) (e : Int) (m : Meas)
    (hm : s.monitor ∈ validMonitors) :
    monitorColumn (afterAppend s e m) = monitorColumn s ++ [m s.monitor] := by
  show (addToHistory s e m).map (fun en => en.getMetric s.monitor) = _
  unfold addToHistory
  rw [List.map_append, List.map_cons, List.map_nil,
    getMetric_new_entry _ _ _ _ hm]
  rfl

lemma checkForImprovement_snd (s : ESState) (v : ℚ) (msign : Int) :
    (checkForImprovement s v msign).2 =
      if improvementOf s v msign then
        { s with index_best := (s.history.length : Int) - 1 }
      else s := by
  unfold checkForImprovement
  dsimp only
  split
  · rfl
  · split <;> rfl

lemma checkForImprovement_fst (s : ESState) (v : ℚ) (msign : Int)
    (himp : improvementOf s v msign = false) :
    (checkForImprovement s v msign).1 =
      decide (s.patience < (nonMissingSinceBest s : Int)) := by
  unfold checkForImprovement
  dsimp only
  rw [if_neg (by simp [himp])]
  split
  · next h => exact (decide_eq_true h).symm
  · next h => exact (decide_eq_false h).symm

lemma improvementOf_of_best (s : ESState) (v bv : ℚ) (msign : Int)
    (hmd : s.min_delta = 0)
    (hbv : pyIndex (monitorColumn s) s.index_best = some bv) :
    improvementOf s v msign = decide (qsign (v - bv) = msign) := by
  unfold improvementOf
  rw [hbv]
  dsimp only
  rw [if_neg (by rw [hmd]; exact lt_irrefl 0)]

lemma monitorSign_cases (monitor : String) :
    monitorSign monitor = 1 ∨ monitorSign monitor = -1 := by
  unfold monitorSign
  split
  · exact Or.inl rfl
  · exact Or.inr rfl

lemma betterEq_acc (bv u : ℚ) (msign : Int) (hms : msign = 1) :
    betterEq msign bv u ↔ u ≤ bv := by
  unfold betterEq
  rw [hms, if_pos rfl]

lemma betterEq_loss (bv u : ℚ) (msign : Int) (hms : msign = -1) :
    betterEq msign bv u ↔ bv ≤ u := by
  unfold betterEq
  rw [hms, if_neg (by decide)]

lemma bestInv_step (s : ESState) (e : Int) (m : Meas)
    (hm : s.monitor ∈ validMonitors) (hth : s.threshold = 0) (hmd : s.min_delta = 0)
    (hinv : BestIndexPointsToBest s) :
    BestIndexPointsToBest ((checkEarlyStop s e m).2) := by
  rcases le_or_lt e 0 with he | he
  · rw [checkEarlyStop_err _ _ _ he]
    exact hinv
  obtain ⟨hidx0, hidxlt, bv, hbv, hopt⟩ := hinv
  have hcol : monitorColumn (afterAppend s e m) = monitorColumn s ++ [m s.monitor] :=
    monitorColumn_afterAppend s e m hm
  have hcollen : (monitorColumn s).length = s.history.length := monitorColumn_length s
  have hlen1 : (afterAppend s e m).history.length = s.history.length + 1 :=
    addToHistory_length s e m
  unfold checkEarlyStop
  rw [if_neg (by omega)]
  dsimp only
  rw [if_neg (by
    intro hc
    rw [show (afterAppend s e m).threshold = 0 from hth] at hc
    exact lt_irrefl 0 hc.1)]
  cases hv : m (afterAppend s e m).monitor with
  | none =>
    dsimp only
    have hlt2 : s.index_best < ((afterAppend s e m).history.length : Int) := by
      rw [hlen1]
      omega
    refine ⟨hidx0, hlt2, bv, ?_, ?_⟩
    · rw [hcol]
      show pyIndex (monitorColumn s ++ [m s.monitor]) s.index_best = some bv
      rw [pyIndex_append _ _ _ hidx0 (by omega)]
      exact hbv
    · intro ov hov u hu
      rw [hcol] at hov
      rcases List.mem_append.mp hov with hov | hov
      · exact hopt ov hov u hu
      · rw [List.mem_singleton] at hov
        subst hov
        have hv' : m s.monitor = none := hv
        rw [hv'] at hu
        exact Option.noConfusion hu
  | some v =>
    have hne : ¬((afterAppend s e m).history.length = 1) := by rw [hlen1]; omega
    dsimp only
    rw [if_neg hne]
    dsimp only
    rw [checkForImprovement_snd]
    have hmv : m s.monitor = some v := hv
    have hbv1 : pyIndex (monitorColumn (afterAppend s e m))
        (afterAppend s e m).index_best = some bv := by
      rw [hcol]
      show pyIndex (monitorColumn s ++ [m s.monitor]) s.index_best = some bv
      rw [pyIndex_append _ _ _ hidx0 (by omega)]
      exact hbv
    have himp := improvementOf_of_best (afterAppend s e m) v bv
      (monitorSign (afterAppend s e m).monitor) hmd hbv1
    have hcolv : monitorColumn (afterAppend s e m) = monitorColumn s ++ [some v] := by
      rw [hcol, hmv]
    split
    · next himpT =>
      rw [himp] at himpT
      have hq : qsign (v - bv) = monitorSign s.monitor := of_decide_eq_true himpT
      refine ⟨by rw [hlen1]; push_cast; omega, by rw [hlen1]; push_cast; omega, v, ?_, ?_⟩
      · show pyIndex (monitorColumn (afterAppend s e m))
          ((((afterAppend s e m).history.length : Int)) - 1) = some v
        rw [hcolv]
        have hcast : (((afterAppend s e m).history.length : Int)) - 1
            = ((monitorColumn s).length : Int) := by
          rw [hlen1, hcollen]
          push_cast
          omega
        rw [hcast, pyIndex_concat]
      · intro ov hov u hu
        have hov' : ov ∈ monitorColumn s ++ [some v] := by
          rw [← hcolv]
          exact hov
        show betterEq (monitorSign s.monitor) v u
        rcases monitorSign_cases s.monitor with hms | hms
        · -- accuracy: qsign (v - bv) = 1, so bv < v
          rw [hms] at hq
          have hlt : bv < v := by
            have := (qsign_eq_one_iff (v - bv)).mp hq
            linarith
          rw [betterEq_acc _ _ _ hms]
          rcases List.mem_append.mp hov' with hmem | hmem
          · have := (betterEq_acc bv u _ hms).mp (hopt ov hmem u hu)
            linarith
          · rw [List.mem_singleton] at hmem
            subst hmem
            cases hu
            exact le_refl v
        · -- loss: qsign (v - bv) = -1, so v < bv
          rw [hms] at hq
          have hlt : v < bv := by
            have := (qsign_eq_neg_one_iff (v - bv)).mp hq
            linarith
          rw [betterEq_loss _ _ _ hms]
          rcases List.mem_append.mp hov' with hmem | hmem
          · have := (betterEq_loss bv u _ hms).mp (hopt ov hmem u hu)
            linarith
          · rw [List.mem_singleton] at hmem
            subst hmem
            cases hu
            exact le_refl v
    · next himpF =>
      rw [himp] at himpF
      have hq : ¬(qsign (v - bv) = monitorSign s.monitor) :=
        fun hc => himpF (decide_eq_true hc)
      have hlt2 : s.index_best < ((afterAppend s e m).history.length : Int) := by
        rw [hlen1]
        omega
      refine ⟨hidx0, hlt2, bv, hbv1, ?_⟩
      intro ov hov u hu
      have hov' : ov ∈ monitorColumn s ++ [some v] := by
        rw [← hcolv]
        exact hov
      show betterEq (monitorSign s.monitor) bv u
      rcases List.mem_append.mp hov' with hmem | hmem
      · exact hopt ov hmem u hu
      · rw [List.mem_singleton] at hmem
        subst hmem
        cases hu
        rcases monitorSign_cases s.monitor with hms | hms
        · rw [hms] at hq
          rw [betterEq_acc _ _ _ hms]
          by_contra hvb
          exact hq ((qsign_eq_one_iff _).mpr (by linarith))
        · rw [hms] at hq
          rw [betterEq_loss _ _ _ hms]
          by_contra hvb
          exact hq ((qsign_eq_neg_one_iff _).mpr (by linarith))


lemma bestInv_first (s : ESState) (e : Int) (m : Meas) (v : ℚ)
    (hm : s.monitor ∈ validMonitors) (hth : s.threshold = 0)
    (h0 : s.history = []) (he : 0 < e) (hv : m s.monitor = some v) :
    BestIndexPointsToBest ((checkEarlyStop s e m).2) := by
  have hcol : monitorColumn (afterAppend s e m) = monitorColumn s ++ [m s.monitor] :=
    monitorColumn_afterAppend s e m hm
  have hcol0 : monitorColumn s = [] := by
    unfold monitorColumn
    rw [h0]
    rfl
  have hlen1 : (afterAppend s e m).history.length = s.history.length + 1 :=
    addToHistory_length s e m
  have hcolv : monitorColumn (afterAppend s e m) = [some v] := by
    rw [hcol, hcol0, hv, List.nil_append]
  unfold checkEarlyStop
  rw [if_neg (by omega)]
  dsimp only
  rw [if_neg (by
    intro hc
    rw [show (afterAppend s e m).threshold = 0 from hth] at hc
    exact lt_irrefl 0 hc.1)]
  cases hvv : m (afterAppend s e m).monitor with
  | none =>
    have : m s.monitor = none := hvv
    rw [hv] at this
    exact Option.noConfusion this
  | some w =>
    dsimp only
    rw [if_pos (by rw [hlen1, h0]; rfl)]
    dsimp only
    refine ⟨le_refl 0, by rw [hlen1, h0]; simp, v, ?_, ?_⟩
    · show pyIndex (monitorColumn (afterAppend s e m)) 0 = some v
      rw [hcolv]
      rfl
    · intro ov hov u hu
      have hov2 : ov ∈ monitorColumn (afterAppend s e m) := hov
      rw [hcolv, List.mem_singleton] at hov2
      subst hov2
      cases hu
      show betterEq (monitorSign s.monitor) v v
      rcases monitorSign_cases s.monitor with hms | hms
      · exact (betterEq_acc _ _ _ hms).mpr (le_refl v)
      · exact (betterEq_loss _ _ _ hms).mpr (le_refl v)

lemma bestInv_run (s : ESState) (calls : List (Int × Meas))
    (hm : s.monitor ∈ validMonitors) (hth : s.threshold = 0) (hmd : s.min_delta = 0)
    (hinv : BestIndexPointsToBest s) :
    BestIndexPointsToBest (runState s calls) := by
  induction calls generalizing s with
  | nil => exact hinv
  | cons hd tl ih =>
    obtain ⟨e, m⟩ := hd
    rw [runState_cons]
    obtain ⟨f1, f2, f3, f4⟩ := checkEarlyStop_fields s e m
    exact ih _ (by rw [f1]; exact hm) (by rw [f4]; exact hth) (by rw [f2]; exact hmd)
      (bestInv_step s e m hm hth hmd hinv)

/-! ## Claims -/

/-- Claim C1 (code bug): interleaving a call whose measurement lacks the
monitored metric is NOT neutral. With monitor `val_loss` and `patience = 1`,
the strictly improving sequence 0.5, 0.4 at epochs 1, 2 yields false, false;
inserting a leading check whose measurement is empty turns the decision of
the last call into true, because `index_best` is stuck at -1 and the
negative-index read of `previous_best` then always returns the current value. -/
theorem claim_C1_absent_call_changes_decisions :
    runDecisions (freshES "val_loss" defaultMinDelta 1 0)
      [(1, measOf "val_loss" (1/2)), (2, measOf "val_loss" (2/5))]
      = [Except.ok false, Except.ok false]
    ∧ runDecisions (freshES "val_loss" defaultMinDelta 1 0)
      [(1, measEmpty), (1, measOf "val_loss" (1/2)), (2, measOf "val_loss" (2/5))]
      = [Except.ok false, Except.ok false, Except.ok true] :=
  ⟨by decide, by decide⟩

/-- Claim C2 counterexample: with the default `min_delta` (1e-14), a second
loss value that is strictly smaller — i.e. strictly better — than the first
by less than `min_delta` does not move `index_best`, so `index_best` does
not point to the entry holding the minimal present monitored value. -/
theorem claim_C2_counterexample :
    (runState (freshES "val_loss" defaultMinDelta 5 0)
      [(1, measOf "val_loss" 1),
       (2, measOf "val_loss" (1 - 1/1000000000000000))]).index_best = 0
    ∧ monitorColumn (runState (freshES "val_loss" defaultMinDelta 5 0)
        [(1, measOf "val_loss" 1),
         (2, measOf "val_loss" (1 - 1/1000000000000000))])
      = [some 1, some ((1:ℚ) - 1/1000000000000000)]
    ∧ ((1:ℚ) - 1/1000000000000000) < 1 :=
  ⟨by decide, by decide, by decide⟩

/-- Claim C2 (amended): after any sequence of check calls from construction,
`index_best` is -1 or a valid index into the history; moreover, when
`min_delta = 0`, `threshold = 0` and the first check call succeeds with the
monitored metric present, `index_best` points to an entry whose monitored
value is present and best (maximal for accuracy monitors, minimal for loss
monitors) among all present monitored values in the history. -/
theorem claim_C2_index_best_invariant (monitor : String) (md : ℚ) (pat : Int) (th : ℚ)
    (calls rest : List (Int × Meas)) (e0 : Int) (m0 : Meas) (v0 : ℚ) :
    IndexValid (runState (freshES monitor md pat th) calls)
    ∧ (monitor ∈ validMonitors → 0 < e0 → m0 monitor = some v0 →
        BestIndexPointsToBest (runState (freshES monitor 0 pat 0) ((e0, m0) :: rest))) := by
  constructor
  · exact indexValid_run _ calls (Or.inl rfl)
  · intro hm he hv
    rw [runState_cons]
    have hfirst := bestInv_first (freshES monitor 0 pat 0) e0 m0 v0 hm rfl rfl he hv
    obtain ⟨f1, f2, f3, f4⟩ := checkEarlyStop_fields (freshES monitor 0 pat 0) e0 m0
    exact bestInv_run _ rest (by rw [f1]; exact hm) (by rw [f4]; rfl) (by rw [f2]; rfl) hfirst

/-- Claim C2 witness. -/
theorem claim_C2_witness :
    ("val_loss" ∈ validMonitors)
    ∧ (0:Int) < 1
    ∧ measOf "val_loss" 1 "val_loss" = some 1
    ∧ IndexValid (runState (freshES "val_loss" 0 5 0)
        [(1, measOf "val_loss" 1), (2, measOf "val_loss" (1/2))])
    ∧ BestIndexPointsToBest (runState (freshES "val_loss" 0 5 0)
        [(1, measOf "val_loss" 1), (2, measOf "val_loss" (1/2))]) :=
  ⟨by decide, by decide, by decide,
   (claim_C2_index_best_invariant "val_loss" 0 5 0
     [(1, measOf "val_loss" 1), (2, measOf "val_loss" (1/2))]
     [(2, measOf "val_loss" (1/2))] 1 (measOf "val_loss" 1) 1).1,
   (claim_C2_index_best_invariant "val_loss" 0 5 0
     [(1, measOf "val_loss" 1), (2, measOf "val_loss" (1/2))]
     [(2, measOf "val_loss" (1/2))] 1 (measOf "val_loss" 1) 1).2
     (by decide) (by decide) (by decide)⟩

/-- Claim C3 counterexample: the no-op evaluator does not raise on
`epoch = 0`; it returns false. -/
theorem claim_C3_counterexample :
    (checkH Handler.noop 0 measEmpty).1 = Except.ok false
    ∧ (checkH Handler.noop 0 measEmpty).1 ≠
        Except.error "Argument epoch must be greater than zero." := by
  constructor
  · simp [checkH]
  · simp [checkH]

/-- Claim C3 (amended): the single-metric evaluator raises the invocation
error on `epoch ≤ 0` leaving its entire state (hence its history) unchanged,
and a composite evaluator propagates that error from a child; the no-op
evaluator and the empty composite never raise and return false. -/
theorem claim_C3_epoch_guard :
    (∀ (s : ESState) (e : Int) (m : Meas), e ≤ 0 →
      checkEarlyStop s e m = (Except.error "Argument epoch must be greater than zero.", s))
    ∧ (∀ (e : Int) (m : Meas), checkH Handler.noop e m = (Except.ok false, Handler.noop))
    ∧ (∀ (e : Int) (m : Meas), checkH (Handler.seq []) e m = (Except.ok false, Handler.seq []))
    ∧ (∀ (s : ESState) (e : Int) (m : Meas), e ≤ 0 →
        checkH (Handler.seq [Handler.early s]) e m =
          (Except.error "Argument epoch must be greater than zero.",
            Handler.seq [Handler.early s])) := by
  refine ⟨?_, ?_, ?_, ?_⟩
  · exact checkEarlyStop_err
  · intro e m; simp [checkH]
  · intro e m; simp [checkH, checkHList]
  · intro s e m he
    simp [checkH, checkHList, checkEarlyStop_err s e m he]

/-- Claim C3 witness. -/
theorem claim_C3_witness :
    checkEarlyStop (freshES "val_loss" defaultMinDelta 5 0) 0 measEmpty =
      (Except.error "Argument epoch must be greater than zero.",
        freshES "val_loss" defaultMinDelta 5 0)
    ∧ checkH (Handler.seq [Handler.early (freshES "val_loss" defaultMinDelta 5 0)]) 0 measEmpty =
      (Except.error "Argument epoch must be greater than zero.",
        Handler.seq [Handler.early (freshES "val_loss" defaultMinDelta 5 0)]) :=
  ⟨claim_C3_epoch_guard.1 _ 0 measEmpty (by decide),
   claim_C3_epoch_guard.2.2.2 _ 0 measEmpty (by decide)⟩

/-- Claim C4: with `threshold > 0` and the monitored value present, the
threshold rule fires exactly when `sign(value - threshold)` equals the
monitor sign, in which case the check answers true regardless of the rest of
the state; a value exactly equal to the threshold never fires it. -/
theorem claim_C4_threshold_sign (s : ESState) (e : Int) (m : Meas) (v : ℚ)
    (he : 0 < e) (ht : 0 < s.threshold) (hv : m s.monitor = some v) :
    (qsign (v - s.threshold) = monitorSign s.monitor →
      (checkEarlyStop s e m).1 = Except.ok true)
    ∧ (hasCrossedThreshold s m = true ↔ qsign (v - s.threshold) = monitorSign s.monitor)
    ∧ (v = s.threshold → hasCrossedThreshold s m = false) := by
  have hcr : hasCrossedThreshold s m =
      decide (qsign (v - s.threshold) = monitorSign s.monitor) := by
    unfold hasCrossedThreshold
    rw [hv]
  have hsame : hasCrossedThreshold (afterAppend s e m) m = hasCrossedThreshold s m := rfl
  refine ⟨?_, ?_, ?_⟩
  · intro hsig
    unfold checkEarlyStop
    rw [if_neg (by omega)]
    dsimp only
    rw [if_pos ⟨ht, by rw [hsame, hcr]; exact decide_eq_true hsig⟩]
  · rw [hcr, decide_eq_true_eq]
  · intro hveq
    rw [hcr]
    apply decide_eq_false
    intro hq
    rw [hveq, sub_self] at hq
    unfold monitorSign at hq
    revert hq
    split <;> decide

/-- Claim C4 witness: loss monitor, threshold 0.1, value 0.05. -/
theorem claim_C4_witness :
    (0:Int) < 1
    ∧ (0:ℚ) < (freshES "val_loss" defaultMinDelta 2 (1/10)).threshold
    ∧ measOf "val_loss" (1/20) (freshES "val_loss" defaultMinDelta 2 (1/10)).monitor
        = some (1/20)
    ∧ ((qsign ((1/20 : ℚ) - (freshES "val_loss" defaultMinDelta 2 (1/10)).threshold) =
          monitorSign (freshES "val_loss" defaultMinDelta 2 (1/10)).monitor →
        (checkEarlyStop (freshES "val_loss" defaultMinDelta 2 (1/10)) 1
          (measOf "val_loss" (1/20))).1 = Except.ok true)
      ∧ (hasCrossedThreshold (freshES "val_loss" defaultMinDelta 2 (1/10))
            (measOf "val_loss" (1/20)) = true ↔
          qsign ((1/20 : ℚ) - (freshES "val_loss" defaultMinDelta 2 (1/10)).threshold) =
            monitorSign (freshES "val_loss" defaultMinDelta 2 (1/10)).monitor)
      ∧ ((1/20 : ℚ) = (freshES "val_loss" defaultMinDelta 2 (1/10)).threshold →
          hasCrossedThreshold (freshES "val_loss" defaultMinDelta 2 (1/10))
            (measOf "val_loss" (1/20)) = false)) :=
  ⟨by decide, by decide, by decide,
   claim_C4_threshold_sign (freshES "val_loss" defaultMinDelta 2 (1/10)) 1
     (measOf "val_loss" (1/20)) (1/20) (by decide) (by decide) (by decide)⟩

/-- Claim C8: every successful check appends exactly one entry whose
duplicate count equals the number of existing entries with the same epoch;
from an empty history, two checks with the same epoch get counts 0 and 1. -/
theorem claim_C8_duplicate_count (s : ESState) (e : Int) (m m2 : Meas) (he : 0 < e) :
    (checkEarlyStop s e m).2.history =
      s.history ++ [⟨e, (s.history.filter (fun en => en.epoch = e)).length,
        m "train_acc", m "train_loss", m "val_acc", m "val_loss"⟩]
    ∧ ∀ (s0 : ESState), s0.history = [] →
        (runState s0 [(e, m), (e, m2)]).history.map Entry.count = [0, 1] := by
  constructor
  · rw [(checkEarlyStop_spec s e m he).2.2.2.2.1]
    rfl
  · intro s0 h0
    have h1 := (checkEarlyStop_spec s0 e m he).2.2.2.2.1
    have h2 := (checkEarlyStop_spec ((checkEarlyStop s0 e m).2) e m2 he).2.2.2.2.1
    show ((checkEarlyStop ((checkEarlyStop s0 e m).2) e m2).2.history.map Entry.count) = [0, 1]
    rw [h2]
    unfold addToHistory
    rw [h1]
    unfold addToHistory
    rw [h0]
    simp

/-- Claim C8 witness. -/
theorem claim_C8_witness :
    (0:Int) < 1
    ∧ (runState (freshES "val_loss" defaultMinDelta 5 0)
        [(1, measEmpty), (1, measEmpty)]).history.map Entry.count = [0, 1] :=
  ⟨by decide,
   (claim_C8_duplicate_count (freshES "val_loss" defaultMinDelta 5 0) 1 measEmpty measEmpty
     (by decide)).2 _ rfl⟩

/-- Claim C9: from a freshly constructed evaluator, once `index_best` is
non-negative after some sequence of checks, any further checks leave it
equal or move it to a later index; it never reverts. -/
theorem claim_C9_index_best_monotone (monitor : String) (md : ℚ) (pat : Int) (th : ℚ)
    (calls extra : List (Int × Meas))
    (hset : 0 ≤ (runState (freshES monitor md pat th) calls).index_best) :
    (runState (freshES monitor md pat th) calls).index_best ≤
      (runState (freshES monitor md pat th) (calls ++ extra)).index_best := by
  rw [runState_append]
  exact index_mono_run _ extra (indexValid_run _ calls (Or.inl rfl))

lemma strContains_acc_of_valid (monitor : String) (hm : monitor ∈ validMonitors) :
    (strContains monitor "_acc" = true) ↔ monitor ∈ ["train_acc", "val_acc"] := by
  simp only [validMonitors, List.mem_cons, List.not_mem_nil, or_false] at hm
  rcases hm with h | h | h | h <;> subst h <;> decide

/-- Claim C7: construction fails with a configuration error exactly when the
monitor is unrecognized, `min_delta < 0`, `patience < 1`, or an accuracy
monitor gets a threshold outside `[0, 1]`; on success the state holds the
arguments verbatim (no silent correction), `index_best = -1`, empty history. -/
theorem claim_C7_construction_validation (monitor : String) (md : ℚ) (pat : Int) (th : ℚ) :
    ((∃ err, mkEarlyStopping monitor md pat th = Except.error err) ↔
      (monitor ∉ validMonitors ∨ md < 0 ∨ pat < 1 ∨
        (monitor ∈ ["train_acc", "val_acc"] ∧ (th < 0 ∨ 1 < th))))
    ∧ (∀ s, mkEarlyStopping monitor md pat th = Except.ok s →
        s = ⟨monitor, md, pat, th, -1, []⟩) := by
  unfold mkEarlyStopping validateArguments
  by_cases h1 : monitor ∉ validMonitors
  · rw [if_pos h1]
    exact ⟨iff_of_true ⟨_, rfl⟩ (Or.inl h1), fun s hs => nomatch hs⟩
  · rw [if_neg h1]
    by_cases h2 : md < 0
    · rw [if_pos h2]
      exact ⟨iff_of_true ⟨_, rfl⟩ (Or.inr (Or.inl h2)), fun s hs => nomatch hs⟩
    · rw [if_neg h2]
      by_cases h3 : pat ≤ 0
      · rw [if_pos h3]
        exact ⟨iff_of_true ⟨_, rfl⟩ (Or.inr (Or.inr (Or.inl (by omega)))),
          fun s hs => nomatch hs⟩
      · rw [if_neg h3]
        by_cases h4 : strContains monitor "_acc" = true ∧ (th < 0 ∨ 1 < th)
        · rw [if_pos h4]
          refine ⟨iff_of_true ⟨_, rfl⟩ (Or.inr (Or.inr (Or.inr ?_))),
            fun s hs => nomatch hs⟩
          exact ⟨(strContains_acc_of_valid monitor (not_not.mp h1)).mp h4.1, h4.2⟩
        · rw [if_neg h4]
          constructor
          · refine iff_of_false ?_ ?_
            · rintro ⟨err, herr⟩
              exact Except.noConfusion herr
            · rintro (hbad | hbad | hbad | hbad)
              · exact hbad (not_not.mp h1)
              · exact h2 hbad
              · exact h3 (by omega)
              · exact h4
                  ⟨(strContains_acc_of_valid monitor (not_not.mp h1)).mpr hbad.1, hbad.2⟩
          · intro s hs
            cases hs
            rfl

/-- Claim C7 witness: a valid loss construction with threshold 2 succeeds
verbatim, and an accuracy construction with threshold 2 fails. -/
theorem claim_C7_witness :
    freshES "val_loss" defaultMinDelta 5 2 =
      (⟨"val_loss", defaultMinDelta, 5, 2, -1, []⟩ : ESState)
    ∧ (∃ err, mkEarlyStopping "train_acc" defaultMinDelta 5 2 = Except.error err) :=
  ⟨(claim_C7_construction_validation "val_loss" defaultMinDelta 5 2).2 _ rfl,
   (claim_C7_construction_validation "train_acc" defaultMinDelta 5 2).1.mpr
     (Or.inr (Or.inr (Or.inr ⟨by decide, Or.inr (by decide)⟩)))⟩

lemma checkHList_ok (e : Int) (m : Meas) (hs : List Handler)
    (hok : ∀ h ∈ hs, ∃ b, (checkH h e m).1 = Except.ok b) :
    checkHList hs e m = (Except.ok (hs.map (fun h => okAnswer h e m)),
      hs.map (fun h => (checkH h e m).2)) := by
  induction hs with
  | nil => rfl
  | cons h t ih =>
    obtain ⟨b, hb⟩ := hok h (List.mem_cons_self h t)
    have hAns : okAnswer h e m = b := by
      unfold okAnswer
      rw [hb]
    have hpair : checkH h e m = (Except.ok b, (checkH h e m).2) := by
      rw [← hb]
    rw [List.map_cons, List.map_cons, hAns]
    show checkHList (h :: t) e m = _
    rw [checkHList, hpair, ih (fun x hx => hok x (List.mem_cons_of_mem h hx))]

lemma list_any_map_id {α : Type} (l : List α) (f : α → Bool) :
    (l.map f).any id = l.any f := by
  induction l with
  | nil => rfl
  | cons h t ih => simp [List.any_cons, ih]

lemma pySlice_nonneg (l : List (Option ℚ)) (i : Int) (h0 : 0 ≤ i) :
    pySlice l i = l.drop i.toNat := by
  unfold pySlice
  rw [if_neg (not_lt.mpr h0)]

lemma nonMissingSinceBest_eq (s : ESState) (hidx : -1 ≤ s.index_best) :
    nonMissingSinceBest s =
      (s.history.drop (s.index_best + 1).toNat).countP
        (fun en => (en.getMetric s.monitor).isSome) := by
  unfold nonMissingSinceBest
  rw [pySlice_nonneg _ _ (by omega)]
  unfold monitorColumn
  rw [← List.map_drop, ← List.countP_eq_length_filter, List.countP_map]
  rfl

/-- Claim C5: when the monitored value is present, the call is not the first
entry, the threshold rule does not fire and there is no improvement, the
check answers true exactly when the number of present monitored values among
the entries strictly after `index_best` (up to and including the current
entry) exceeds the patience; and scenario B (monitor val_loss, patience 2,
defaults, values .065 .068 .067 .066 at epochs 1-4) answers
false, false, false, true. -/
theorem claim_C5_patience_rule (s : ESState) (e : Int) (m : Meas) (v : ℚ)
    (he : 0 < e) (hv : m s.monitor = some v) (hne : s.history ≠ [])
    (hidx : -1 ≤ s.index_best)
    (hthr : ¬(0 < s.threshold ∧ hasCrossedThreshold s m = true))
    (himp : improvementOf (afterAppend s e m) v (monitorSign s.monitor) = false) :
    ((checkEarlyStop s e m).1 =
      Except.ok (decide (s.patience <
        (((afterAppend s e m).history.drop (s.index_best + 1).toNat).countP
          (fun en => (en.getMetric s.monitor).isSome) : Int))))
    ∧ runDecisions (freshES "val_loss" defaultMinDelta 2 0)
        [(1, measOf "val_loss" (65/1000)), (2, measOf "val_loss" (68/1000)),
         (3, measOf "val_loss" (67/1000)), (4, measOf "val_loss" (66/1000))]
      = [Except.ok false, Except.ok false, Except.ok false, Except.ok true] := by
  constructor
  · have hlen1 : (afterAppend s e m).history.length = s.history.length + 1 :=
      addToHistory_length s e m
    have hpos : 0 < s.history.length := List.length_pos.mpr hne
    unfold checkEarlyStop
    rw [if_neg (by omega)]
    dsimp only
    rw [if_neg (show ¬(0 < (afterAppend s e m).threshold ∧
      hasCrossedThreshold (afterAppend s e m) m = true) from hthr)]
    rw [show m (afterAppend s e m).monitor = some v from hv]
    dsimp only
    rw [if_neg (by rw [hlen1]; omega)]
    dsimp only
    rw [checkForImprovement_fst _ _ _ (show improvementOf (afterAppend s e m) v
      (monitorSign (afterAppend s e m).monitor) = false from himp)]
    rw [nonMissingSinceBest_eq (afterAppend s e m) (show -1 ≤ s.index_best from hidx)]
    rfl
  · decide

/-- Claim C5 witness: the second call of scenario B. -/
theorem claim_C5_witness :
    (0:Int) < 2
    ∧ measOf "val_loss" (68/1000)
        (⟨"val_loss", defaultMinDelta, 2, 0, 0,
          [⟨1, 0, none, none, none, some (65/1000)⟩]⟩ : ESState).monitor = some (68/1000)
    ∧ (⟨"val_loss", defaultMinDelta, 2, 0, 0,
        [⟨1, 0, none, none, none, some (65/1000)⟩]⟩ : ESState).history ≠ []
    ∧ ¬((0:ℚ) < (⟨"val_loss", defaultMinDelta, 2, 0, 0,
        [⟨1, 0, none, none, none, some (65/1000)⟩]⟩ : ESState).threshold
      ∧ hasCrossedThreshold (⟨"val_loss", defaultMinDelta, 2, 0, 0,
          [⟨1, 0, none, none, none, some (65/1000)⟩]⟩ : ESState)
          (measOf "val_loss" (68/1000)) = true)
    ∧ improvementOf
        (afterAppend (⟨"val_loss", defaultMinDelta, 2, 0, 0,
          [⟨1, 0, none, none, none, some (65/1000)⟩]⟩ : ESState) 2
          (measOf "val_loss" (68/1000)))
        (68/1000) (monitorSign "val_loss") = false
    ∧ ((checkEarlyStop (⟨"val_loss", defaultMinDelta, 2, 0, 0,
          [⟨1, 0, none, none, none, some (65/1000)⟩]⟩ : ESState) 2
          (measOf "val_loss" (68/1000))).1 =
        Except.ok (decide ((2:Int) <
          (((afterAppend (⟨"val_loss", defaultMinDelta, 2, 0, 0,
              [⟨1, 0, none, none, none, some (65/1000)⟩]⟩ : ESState) 2
              (measOf "val_loss" (68/1000))).history.drop
                ((0:Int) + 1).toNat).countP
            (fun en => (en.getMetric "val_loss").isSome) : Int)))) :=
  ⟨by decide, by decide, by decide, by decide, by decide,
   (claim_C5_patience_rule
     (⟨"val_loss", defaultMinDelta, 2, 0, 0,
       [⟨1, 0, none, none, none, some (65/1000)⟩]⟩ : ESState) 2
     (measOf "val_loss" (68/1000)) (68/1000)
     (by decide) (by decide) (by decide) (by decide) (by decide) (by decide)).1⟩

/-- Claim C6: the composite evaluator invokes every child in order (each
child's updated state appears in the result, even after a child answered
true) and answers the disjunction of the children's answers; with no
children it answers false. -/
theorem claim_C6_composite_or (hs : List Handler) (e : Int) (m : Meas)
    (hok : ∀ h ∈ hs, ∃ b, (checkH h e m).1 = Except.ok b) :
    checkH (Handler.seq hs) e m =
      (Except.ok (hs.any (fun h => okAnswer h e m)),
        Handler.seq (hs.map (fun h => (checkH h e m).2)))
    ∧ checkH (Handler.seq []) e m = (Except.ok false, Handler.seq []) := by
  constructor
  · rw [checkH, checkHList_ok e m hs hok]
    dsimp only
    rw [list_any_map_id]
  · rfl

/-- Claim C6 witness: a threshold-stopping child followed by a no-op child;
the second child is still invoked and the answer is the disjunction. -/
theorem claim_C6_witness :
    (checkH (Handler.early (freshES "val_loss" defaultMinDelta 2 (1/10))) 1
        (measOf "val_loss" (1/20))).1 = Except.ok true
    ∧ checkH
        (Handler.seq [Handler.early (freshES "val_loss" defaultMinDelta 2 (1/10)), Handler.noop])
        1 (measOf "val_loss" (1/20)) =
      (Except.ok
        (([Handler.early (freshES "val_loss" defaultMinDelta 2 (1/10)), Handler.noop]).any
          (fun h => okAnswer h 1 (measOf "val_loss" (1/20)))),
        Handler.seq
          (([Handler.early (freshES "val_loss" defaultMinDelta 2 (1/10)), Handler.noop]).map
            (fun h => (checkH h 1 (measOf "val_loss" (1/20))).2))) := by
  refine ⟨by decide, ?_⟩
  exact (claim_C6_composite_or
    [Handler.early (freshES "val_loss" defaultMinDelta 2 (1/10)), Handler.noop]
    1 (measOf "val_loss" (1/20))
    (fun h hh => by
      rcases hh with _ | ⟨_, hh⟩
      · exact ⟨true, by decide⟩
      · rcases hh with _ | ⟨_, hh⟩
        · exact ⟨false, rfl⟩
        · cases hh)).1

lemma checkHList_err (e : Int) (m : Meas) (pre : List Handler) (hbad : Handler)
    (post : List Handler) (err : String)
    (hok : ∀ h ∈ pre, ∃ b, (checkH h e m).1 = Except.ok b)
    (hfail : (checkH hbad e m).1 = Except.error err) :
    checkHList (pre ++ hbad :: post) e m =
      (Except.error err, pre.map (fun h => (checkH h e m).2) ++ (checkH hbad e m).2 :: post) := by
  induction pre with
  | nil =>
    have hpair : checkH hbad e m = (Except.error err, (checkH hbad e m).2) := by
      rw [← hfail]
    rw [List.nil_append, List.map_nil, List.nil_append]
    show checkHList (hbad :: post) e m = _
    rw [checkHList, hpair]
  | cons h t ih =>
    obtain ⟨b, hb⟩ := hok h (List.mem_cons_self h t)
    have hpair : checkH h e m = (Except.ok b, (checkH h e m).2) := by
      rw [← hb]
    rw [List.cons_append, List.map_cons, List.cons_append]
    show checkHList (h :: (t ++ hbad :: post)) e m = _
    rw [checkHList, hpair, ih (fun x hx => hok x (List.mem_cons_of_mem h hx))]

/-- Claim C10: when a child's check raises, the composite's check raises the
same error; children before it keep their processed (mutated) state, the
failing child keeps the state it reached, and children after it are left
exactly as they were (never invoked). -/
theorem claim_C10_error_propagation (pre post : List Handler) (hbad : Handler)
    (e : Int) (m : Meas) (err : String)
    (hok : ∀ h ∈ pre, ∃ b, (checkH h e m).1 = Except.ok b)
    (hfail : (checkH hbad e m).1 = Except.error err) :
    checkH (Handler.seq (pre ++ hbad :: post)) e m =
      (Except.error err,
        Handler.seq
          (pre.map (fun h => (checkH h e m).2) ++ (checkH hbad e m).2 :: post)) := by
  rw [checkH, checkHList_err e m pre hbad post err hok hfail]

/-- Claim C10 witness: a no-op child, then a single-metric child that raises
on epoch 0, then another no-op child which is left untouched. -/
theorem claim_C10_witness :
    (checkH (Handler.early (freshES "val_loss" defaultMinDelta 5 0)) 0 measEmpty).1 =
      Except.error "Argument epoch must be greater than zero."
    ∧ checkH
        (Handler.seq
          [Handler.noop, Handler.early (freshES "val_loss" defaultMinDelta 5 0), Handler.noop])
        0 measEmpty =
      (Except.error "Argument epoch must be greater than zero.",
        Handler.seq
          (([Handler.noop] : List Handler).map (fun h => (checkH h 0 measEmpty).2) ++
            (checkH (Handler.early (freshES "val_loss" defaultMinDelta 5 0)) 0 measEmpty).2 ::
              [Handler.noop])) := by
  refine ⟨by decide, ?_⟩
  exact claim_C10_error_propagation [Handler.noop] [Handler.noop]
    (Handler.early (freshES "val_loss" defaultMinDelta 5 0)) 0 measEmpty
    "Argument epoch must be greater than zero."
    (fun h hh => by
      rcases hh with _ | ⟨_, hh⟩
      · exact ⟨false, rfl⟩
      · cases hh)
    (by decide)

/-- Claim C9 witness. -/
theorem claim_C9_witness :
    0 ≤ (runState (freshES "val_loss" defaultMinDelta 5 0)
          [(1, measOf "val_loss" 1)]).index_best
    ∧ (runState (freshES "val_loss" defaultMinDelta 5 0)
          [(1, measOf "val_loss" 1)]).index_best ≤
        (runState (freshES "val_loss" defaultMinDelta 5 0)
          ([(1, measOf "val_loss" 1)] ++ [(2, measOf "val_loss" 2)])).index_best :=
  ⟨by decide,
   claim_C9_index_best_monotone "val_loss" defaultMinDelta 5 0
     [(1, measOf "val_loss" 1)] [(2, measOf "val_loss" 2)] (by decide)⟩

end SmallText
